import Mathlib

/-!
# Verification of the Agent-Based Economy Simulation engine

Shallow embedding of `src/simulation.py`: households and firms exchange money
over discrete ticks.  Money amounts are modelled as exact rationals (the Python
code uses floats; the spec's properties are stated "modulo floating-point
rounding tolerance", so we verify the exact-arithmetic content).  Python's
`int(x)` truncates toward zero, which we model explicitly.  Python dicts keyed
by consecutive integers `0..n-1` (with insertion order = key order) are
modelled as lists indexed by position.
-/

namespace EconomySim

/-- Python's `int(x)` conversion on a rational: truncation toward zero. -/
def pyInt (x : ℚ) : ℤ := if 0 ≤ x then ⌊x⌋ else ⌈x⌉

/-- `Household` from `simulation.py`: id, monetary balance, size, employer. -/
structure Household where
  id : ℕ
  balance : ℚ
  size : ℕ
  employer_id : Option ℕ
deriving Repr, DecidableEq, Inhabited

/-- `Household.determine_food_demand`: `self.size * food_per_person`. -/
def determine_food_demand (h : Household) (food_per_person : ℕ) : ℕ :=
  h.size * food_per_person

/-- `Household.place_order_and_pay`: computes demand and cost, debits the
balance, and returns the purchased quantity together with the updated
household.  Mirrors the Python code line by line. -/
def place_order_and_pay (h : Household) (price : ℚ) : ℤ × Household :=
  let food_demand : ℕ := determine_food_demand h 1
  let cost : ℚ := (food_demand : ℚ) * price
  if cost ≤ h.balance then
    ((food_demand : ℤ), { h with balance := h.balance - cost })
  else
    let purchased_quantity : ℤ := pyInt (h.balance / price)
    (purchased_quantity,
      { h with balance := h.balance - (purchased_quantity : ℚ) * price })

/-- `Firm` from `simulation.py`: id, balance (starts at 0), unit price, wage
rate, worker roster, and the per-tick revenue accumulator. -/
structure Firm where
  id : ℕ
  balance : ℚ
  price : ℚ
  wage_rate : ℚ
  worker_ids : List ℕ
  revenue_this_tick : ℚ
deriving Repr, DecidableEq, Inhabited

/-- `Firm.add_worker`: appends a household id to the roster. -/
def add_worker (f : Firm) (household_id : ℕ) : Firm :=
  { f with worker_ids := f.worker_ids ++ [household_id] }

/-- `Firm.receive_payment`: adds the amount to this tick's revenue. -/
def receive_payment (f : Firm) (amount : ℚ) : Firm :=
  { f with revenue_this_tick := f.revenue_this_tick + amount }

/-- Credit the household at index `i` (= id) with `w` money units; models
`households_dict[worker_id].balance += wage_per_worker`. -/
def creditAt : List Household → ℕ → ℚ → List Household
  | [], _, _ => []
  | h :: t, 0, w => { h with balance := h.balance + w } :: t
  | h :: t, n + 1, w => h :: creditAt t n w

/-- `Firm.pay_workers`: fold revenue into the balance, reset the accumulator,
and (if the roster is non-empty) pay each worker an equal share of
`balance * wage_rate`, then debit the total payout. -/
def pay_workers (f : Firm) (households : List Household) :
    Firm × List Household :=
  let f1 : Firm :=
    { f with balance := f.balance + f.revenue_this_tick, revenue_this_tick := 0 }
  if f1.worker_ids.isEmpty then
    (f1, households)
  else
    let total_payout : ℚ := f1.balance * f1.wage_rate
    let wage_per_worker : ℚ := total_payout / (f1.worker_ids.length : ℚ)
    let households' :=
      f1.worker_ids.foldl (fun acc wid => creditAt acc wid wage_per_worker) households
    ({ f1 with balance := f1.balance - total_payout }, households')

/-- A transaction record `{'from_id': ..., 'to_id': ..., 'amount': ...}`
appended during the shopping phase. -/
structure Transaction where
  from_id : ℕ
  to_id : ℕ
  amount : ℚ
deriving Repr, DecidableEq, Inhabited

/-- The configuration object consumed by `Simulation.__init__`. -/
structure Config where
  N_F : ℕ
  N_H : ℕ
  p : ℚ
  wage_rate : ℚ
  M0 : ℚ
  household_size : ℕ
deriving Repr, DecidableEq, Inhabited

/-- The mutable state owned by `Simulation`: the household dict and the firm
dict, both keyed by consecutive ids `0..n-1` and modelled as lists. -/
structure SimState where
  households : List Household
  firms : List Firm
deriving Repr, DecidableEq, Inhabited

/-- Lookup of a firm by id in the firm dict (`self.firms[i]` /
`random.choice(firm_list)` always hits a valid entry in Python; out-of-range
indices return `default` and are excluded by hypotheses). -/
def getFirm (fs : List Firm) (i : ℕ) : Firm := fs.getD i default

/-- `Simulation._setup_world`: create `N_F` firms with ids `0..N_F-1`, then
create `N_H` households with ids `0..N_H-1` and balance `M0 / N_H`, assigning
household `i` the employer `employers[i]` (the random draws
`random.choice(firm_ids)` are passed in as an explicit list). -/
def _setup_world (cfg : Config) (employers : List ℕ) : SimState :=
  let firms0 : List Firm :=
    (List.range cfg.N_F).map fun i =>
      { id := i, balance := 0, price := cfg.p, wage_rate := cfg.wage_rate,
        worker_ids := [], revenue_this_tick := 0 }
  let initial_balance : ℚ := cfg.M0 / (cfg.N_H : ℚ)
  let step := fun (acc : List Household × List Firm) (i : ℕ) =>
    let e := employers.getD i 0
    let hh : Household :=
      { id := i, balance := initial_balance, size := cfg.household_size,
        employer_id := some e }
    (acc.1 ++ [hh], acc.2.set e (add_worker (getFirm acc.2 e) i))
  let res := (List.range cfg.N_H).foldl step ([], firms0)
  { households := res.1, firms := res.2 }

/-- Phase 1 of `run_one_tick` (the shopping loop): iterate the households in
creation order; household `hh` with firm choice `c` (the random draw
`random.choice(firm_list)`, passed in explicitly as an index) purchases at the
chosen firm's price; when the purchased quantity is positive, the amount is
paid to the chosen firm via `receive_payment` and a transaction is appended. -/
def shoppingPhase :
    List Household → List ℕ → List Firm → List Transaction →
    List Household × List Firm × List Transaction
  | [], _, firms, txs => ([], firms, txs)
  | hhs, [], firms, txs => (hhs, firms, txs)
  | hh :: rest, c :: cs, firms, txs =>
    let chosen_firm := getFirm firms c
    let res := place_order_and_pay hh chosen_firm.price
    if 0 < res.1 then
      let amount : ℚ := (res.1 : ℚ) * chosen_firm.price
      let firms' := firms.set c (receive_payment chosen_firm amount)
      let txs' := txs ++ [{ from_id := hh.id, to_id := chosen_firm.id,
                            amount := amount }]
      let out := shoppingPhase rest cs firms' txs'
      (res.2 :: out.1, out.2)
    else
      let out := shoppingPhase rest cs firms txs
      (res.2 :: out.1, out.2)

/-- Phase 2 of `run_one_tick` (the payday loop): each firm in creation order
runs `pay_workers` against the shared household dict. -/
def paydayPhase : List Firm → List Household → List Firm × List Household
  | [], hhs => ([], hhs)
  | f :: rest, hhs =>
    let res := pay_workers f hhs
    let out := paydayPhase rest res.2
    (res.1 :: out.1, out.2)

/-- `Simulation.run_one_tick`: shopping phase over all households, then payday
phase over all firms; returns the new state and the transactions of the tick
(the per-household random firm choices are passed in as `choices`). -/
def run_one_tick (st : SimState) (choices : List ℕ) :
    SimState × List Transaction :=
  let shop := shoppingPhase st.households choices st.firms []
  let pay := paydayPhase shop.2.1 shop.1
  ({ households := pay.2, firms := pay.1 }, shop.2.2)

/-- The states the simulation can actually be in: the state right after
`_setup_world` (for some sequence of valid employer draws), and any state
obtained from a reachable state by one `run_one_tick` with valid firm
choices (Python's `random.choice` always yields an existing firm, one draw
per household). -/
inductive Reachable (cfg : Config) : SimState → Prop
  | setup (employers : List ℕ) (hlen : employers.length = cfg.N_H)
      (hvalid : ∀ e ∈ employers, e < cfg.N_F) :
      Reachable cfg (_setup_world cfg employers)
  | tick (st : SimState) (choices : List ℕ)
      (hlen : choices.length = st.households.length)
      (hvalid : ∀ c ∈ choices, c < st.firms.length)
      (hst : Reachable cfg st) :
      Reachable cfg (run_one_tick st choices).1

/-- Total money in a state: all household balances plus all firm balances,
including the pending revenue accumulators. -/
def totalMoney (st : SimState) : ℚ :=
  (st.households.map Household.balance).sum
    + (st.firms.map Firm.balance).sum
    + (st.firms.map Firm.revenue_this_tick).sum

/-- A firm with its per-tick revenue accumulator cleared; the shopping phase
changes firms only through that accumulator. -/
def stripRevenue (f : Firm) : Firm := { f with revenue_this_tick := 0 }

/-- Modelled from the spec: "every household's shopping decision in a tick
uses the firm price and the household's balance as they stood before that
tick's payday".  Each household's post-shopping state is computed
independently from its own pre-tick state and the chosen firm's price. -/
def specShoppedHouseholds (firms : List Firm) :
    List Household → List ℕ → List Household
  | hhs, [] => hhs
  | [], _ => []
  | hh :: hhs, c :: cs =>
    (place_order_and_pay hh (getFirm firms c).price).2
      :: specShoppedHouseholds firms hhs cs

/-- Modelled from the spec: the transaction records of a tick, one record
`{from: household id, to: firm id, amount = quantity × price}` per household
whose purchased quantity is positive, in household order, each computed from
the household's pre-tick balance and the chosen firm's (fixed) price. -/
def specShoppingTransactions (firms : List Firm) :
    List Household → List ℕ → List Transaction
  | _, [] => []
  | [], _ => []
  | hh :: hhs, c :: cs =>
    let f := getFirm firms c
    let qty := (place_order_and_pay hh f.price).1
    (if 0 < qty then [{ from_id := hh.id, to_id := f.id,
                        amount := (qty : ℚ) * f.price }] else [])
      ++ specShoppingTransactions firms hhs cs

/-- Apply one recorded sale to the firm dict: the recorded amount is passed to
the payee firm's `receive_payment` (the code's `record_sale`). -/
def applySale (fs : List Firm) (tx : Transaction) : List Firm :=
  fs.set tx.to_id (receive_payment (getFirm fs tx.to_id) tx.amount)

/-- Well-formedness of a simulation state for configuration `cfg`: the
population sizes match the configuration, ids equal positions, balances and
revenue accumulators are non-negative, every firm carries the configured
price and wage rate, and every roster entry is a valid household id.  This
holds for every reachable state. -/
structure WF (cfg : Config) (st : SimState) : Prop where
  hh_len : st.households.length = cfg.N_H
  firm_len : st.firms.length = cfg.N_F
  hh_id : ∀ i, i < st.households.length → (st.households.getD i default).id = i
  firm_id : ∀ i, i < st.firms.length → (st.firms.getD i default).id = i
  hh_nonneg : ∀ hh ∈ st.households, 0 ≤ hh.balance
  firm_balance_nonneg : ∀ f ∈ st.firms, 0 ≤ f.balance
  firm_revenue_nonneg : ∀ f ∈ st.firms, 0 ≤ f.revenue_this_tick
  firm_price : ∀ f ∈ st.firms, f.price = cfg.p
  firm_wage : ∀ f ∈ st.firms, f.wage_rate = cfg.wage_rate
  firm_roster : ∀ f ∈ st.firms, ∀ w ∈ f.worker_ids, w < cfg.N_H

/-! ## Basic facts about `place_order_and_pay` -/

lemma pyInt_of_nonneg {x : ℚ} (hx : 0 ≤ x) : pyInt x = ⌊x⌋ := by
  simp [pyInt, hx]

/-- Closed form of `place_order_and_pay` (demand is `size * 1 = size`). -/
lemma place_order_and_pay_eq (h : Household) (price : ℚ) :
    place_order_and_pay h price =
      if (h.size : ℚ) * price ≤ h.balance then
        ((h.size : ℤ), { h with balance := h.balance - (h.size : ℚ) * price })
      else
        (pyInt (h.balance / price),
          { h with balance :=
              h.balance - (pyInt (h.balance / price) : ℚ) * price }) := by
  simp [place_order_and_pay, determine_food_demand]

lemma place_order_balance (h : Household) (price : ℚ) :
    (place_order_and_pay h price).2.balance
      = h.balance - ((place_order_and_pay h price).1 : ℚ) * price := by
  rw [place_order_and_pay_eq]
  split <;> simp

lemma place_order_id (h : Household) (price : ℚ) :
    (place_order_and_pay h price).2.id = h.id := by
  rw [place_order_and_pay_eq]; split <;> rfl

lemma place_order_size (h : Household) (price : ℚ) :
    (place_order_and_pay h price).2.size = h.size := by
  rw [place_order_and_pay_eq]; split <;> rfl

lemma place_order_employer (h : Household) (price : ℚ) :
    (place_order_and_pay h price).2.employer_id = h.employer_id := by
  rw [place_order_and_pay_eq]; split <;> rfl

lemma place_order_qty_nonneg (h : Household) (price : ℚ)
    (hb : 0 ≤ h.balance) (hp : 0 < price) :
    0 ≤ (place_order_and_pay h price).1 := by
  rw [place_order_and_pay_eq]
  split
  · exact Int.ofNat_nonneg _
  · have hd : 0 ≤ h.balance / price := div_nonneg hb hp.le
    simp only [pyInt_of_nonneg hd]
    exact Int.floor_nonneg.mpr hd

lemma place_order_spend_le (h : Household) (price : ℚ)
    (hb : 0 ≤ h.balance) (hp : 0 < price) :
    ((place_order_and_pay h price).1 : ℚ) * price ≤ h.balance := by
  rw [place_order_and_pay_eq]
  split
  · simpa using ‹(h.size : ℚ) * price ≤ h.balance›
  · have hd : 0 ≤ h.balance / price := div_nonneg hb hp.le
    simp only [pyInt_of_nonneg hd]
    calc ((⌊h.balance / price⌋ : ℚ)) * price
        ≤ (h.balance / price) * price := by
          exact mul_le_mul_of_nonneg_right (Int.floor_le _) hp.le
      _ = h.balance := div_mul_cancel₀ _ hp.ne'

lemma place_order_balance_nonneg (h : Household) (price : ℚ)
    (hb : 0 ≤ h.balance) (hp : 0 < price) :
    0 ≤ (place_order_and_pay h price).2.balance := by
  rw [place_order_balance]
  have := place_order_spend_le h price hb hp
  linarith

/-! ## Claim C2: functional behaviour of `place_order_and_pay` -/

/-- C2: for a household with balance `B ≥ 0`, positive size `s`, and price
`P > 0`, `place_order_and_pay` computes the desired quantity `s × 1` (the
demand); if `B ≥ s × P` it debits the full cost and returns `s`, otherwise it
debits `⌊B / P⌋ × P` and returns `⌊B / P⌋`; the returned quantity is a
non-negative integer, and when it is `0` the balance is unchanged. -/
theorem purchase_demand_cost_clamp (h : Household) (price : ℚ)
    (hb : 0 ≤ h.balance) (_hs : 0 < h.size) (hp : 0 < price) :
    determine_food_demand h 1 = h.size ∧
    ((h.size : ℚ) * price ≤ h.balance →
      (place_order_and_pay h price).1 = (h.size : ℤ) ∧
      (place_order_and_pay h price).2.balance
        = h.balance - (h.size : ℚ) * price) ∧
    (¬ (h.size : ℚ) * price ≤ h.balance →
      (place_order_and_pay h price).1 = ⌊h.balance / price⌋ ∧
      (place_order_and_pay h price).2.balance
        = h.balance - (⌊h.balance / price⌋ : ℚ) * price) ∧
    0 ≤ (place_order_and_pay h price).1 ∧
    ((place_order_and_pay h price).1 = 0 →
      (place_order_and_pay h price).2.balance = h.balance) := by
  have hd : 0 ≤ h.balance / price := div_nonneg hb hp.le
  refine ⟨by simp [determine_food_demand], ?_, ?_, place_order_qty_nonneg h price hb hp, ?_⟩
  · intro hc
    rw [place_order_and_pay_eq]
    simp [hc]
  · intro hc
    rw [place_order_and_pay_eq]
    simp [hc, pyInt_of_nonneg hd]
  · intro hq
    rw [place_order_balance, hq]
    simp

/-- Witness for C2 at the spec's own scenario (balance 50, size 1, price 10). -/
theorem purchase_demand_cost_clamp_witness :
    determine_food_demand ⟨0, 50, 1, none⟩ 1 = 1 ∧
    (place_order_and_pay ⟨0, 50, 1, none⟩ 10).1 = 1 ∧
    (place_order_and_pay ⟨0, 50, 1, none⟩ 10).2.balance = 40 := by
  have h := purchase_demand_cost_clamp ⟨0, 50, 1, none⟩ 10
    (by norm_num) (by norm_num) (by norm_num)
  obtain ⟨hdem, haff, -, -, -⟩ := h
  have := haff (by norm_num)
  exact ⟨hdem, by simpa using this.1, by rw [this.2]; norm_num⟩

/-! ## Claim C6: the affordability clamp -/

/-- C6 as stated is false: with balance 50, size 1, price 10 the purchase
returns quantity 1, yet 5 also satisfies `Q × P ≤ B`, so the returned quantity
is not the maximum integer with `Q × P ≤ B` (it is capped at the demand). -/
theorem purchase_clamp_counterexample :
    (place_order_and_pay ⟨0, 50, 1, none⟩ 10).1 = 1 ∧
    ((5 : ℤ) : ℚ) * 10 ≤ (50 : ℚ) ∧
    ¬ ((5 : ℤ) ≤ (place_order_and_pay ⟨0, 50, 1, none⟩ 10).1) := by
  refine ⟨?_, by norm_num, ?_⟩ <;>
    norm_num [place_order_and_pay, determine_food_demand]

/-- C6 amended: for balance `B ≥ 0` and price `P > 0`, the returned quantity
`Q` satisfies `Q × P ≤ B`, and `Q` is the maximum integer satisfying both
`Q × P ≤ B` and `Q ≤ s` (the desired demand); the unqualified maximality over
all integers with `Q × P ≤ B` fails in the affordable case. -/
theorem purchase_affordability_clamp (h : Household) (price : ℚ)
    (hb : 0 ≤ h.balance) (hp : 0 < price) :
    ((place_order_and_pay h price).1 : ℚ) * price ≤ h.balance ∧
    (place_order_and_pay h price).1 ≤ (h.size : ℤ) ∧
    ∀ z : ℤ, (z : ℚ) * price ≤ h.balance → z ≤ (h.size : ℤ) →
      z ≤ (place_order_and_pay h price).1 := by
  have hd : 0 ≤ h.balance / price := div_nonneg hb hp.le
  refine ⟨place_order_spend_le h price hb hp, ?_, ?_⟩
  · rw [place_order_and_pay_eq]
    split
    · simp
    · rename_i hc
      simp only [pyInt_of_nonneg hd]
      have hlt : h.balance / price < (h.size : ℚ) := by
        rw [div_lt_iff₀ hp]
        exact lt_of_not_le hc
      exact (Int.floor_lt.mpr (by exact_mod_cast hlt)).le
  · intro z hz hzs
    rw [place_order_and_pay_eq]
    split
    · simpa using hzs
    · simp only [pyInt_of_nonneg hd]
      exact Int.le_floor.mpr (by rw [le_div_iff₀ hp]; exact_mod_cast hz)

/-- Witness for the amended C6 at the spec's scenario (balance 7, price 10):
quantity 0 is purchased, `0 × 10 ≤ 7`, and maximality holds at `z = 0`. -/
theorem purchase_affordability_clamp_witness :
    ((place_order_and_pay ⟨1, 7, 1, none⟩ 10).1 : ℚ) * 10 ≤ (7 : ℚ) ∧
    (place_order_and_pay ⟨1, 7, 1, none⟩ 10).1 ≤ (1 : ℤ) ∧
    (0 : ℤ) ≤ (place_order_and_pay ⟨1, 7, 1, none⟩ 10).1 := by
  have h := purchase_affordability_clamp ⟨1, 7, 1, none⟩ 10 (by norm_num) (by norm_num)
  exact ⟨h.1, by simpa using h.2.1, h.2.2 0 (by norm_num) (by norm_num)⟩

/-! ## Facts about `creditAt` and the wage-distribution fold -/

lemma creditAt_length (hhs : List Household) (i : ℕ) (w : ℚ) :
    (creditAt hhs i w).length = hhs.length := by
  induction hhs generalizing i with
  | nil => rfl
  | cons h t ih =>
    cases i with
    | zero => rfl
    | succ n => simpa [creditAt] using ih n

lemma creditAt_getD_balance (hhs : List Household) (i : ℕ) (w : ℚ)
    (j : ℕ) (hj : j < hhs.length) :
    ((creditAt hhs i w).getD j default).balance
      = ((hhs.getD j default).balance + if j = i then w else 0) := by
  induction hhs generalizing i j with
  | nil => simp at hj
  | cons h t ih =>
    cases i with
    | zero =>
      cases j with
      | zero => simp [creditAt]
      | succ m => simp [creditAt]
    | succ n =>
      cases j with
      | zero => simp [creditAt]
      | succ m =>
        have hm : m < t.length := by simpa using hj
        simpa [creditAt] using ih n m hm

lemma creditAt_getD_untouched (hhs : List Household) (i : ℕ) (w : ℚ)
    (j : ℕ) (hne : j ≠ i) :
    (creditAt hhs i w).getD j default = hhs.getD j default := by
  induction hhs generalizing i j with
  | nil => rfl
  | cons h t ih =>
    cases i with
    | zero =>
      cases j with
      | zero => exact absurd rfl hne
      | succ m => simp [creditAt]
    | succ n =>
      cases j with
      | zero => simp [creditAt]
      | succ m => simpa [creditAt] using ih n m (by omega)

lemma creditAt_sum (hhs : List Household) (i : ℕ) (w : ℚ)
    (hi : i < hhs.length) :
    ((creditAt hhs i w).map Household.balance).sum
      = (hhs.map Household.balance).sum + w := by
  induction hhs generalizing i with
  | nil => simp at hi
  | cons h t ih =>
    cases i with
    | zero => simp [creditAt]; ring
    | succ n =>
      have hn : n < t.length := by simpa using hi
      simp only [creditAt, List.map_cons, List.sum_cons, ih n hn]
      ring

lemma creditFold_length (ids : List ℕ) (hhs : List Household) (w : ℚ) :
    (ids.foldl (fun acc wid => creditAt acc wid w) hhs).length
      = hhs.length := by
  induction ids generalizing hhs with
  | nil => rfl
  | cons a t ih => simpa [creditAt_length] using ih (creditAt hhs a w)

lemma creditFold_getD_balance (ids : List ℕ) (hhs : List Household) (w : ℚ)
    (j : ℕ) (hj : j < hhs.length) :
    (((ids.foldl (fun acc wid => creditAt acc wid w) hhs)).getD j
        default).balance
      = (hhs.getD j default).balance + (ids.count j : ℚ) * w := by
  induction ids generalizing hhs with
  | nil => simp
  | cons a t ih =>
    have hj' : j < (creditAt hhs a w).length := by
      simpa [creditAt_length] using hj
    by_cases hja : j = a
    · subst hja
      rw [List.foldl_cons, ih (creditAt hhs j w) hj',
        creditAt_getD_balance hhs j w j hj, List.count_cons]
      simp
      ring
    · rw [List.foldl_cons, ih (creditAt hhs a w) hj',
        creditAt_getD_untouched hhs a w j hja, List.count_cons]
      have hne : ¬ (a = j) := fun hc => hja hc.symm
      simp [hne]

lemma creditFold_sum (ids : List ℕ) (hhs : List Household) (w : ℚ)
    (hvalid : ∀ wid ∈ ids, wid < hhs.length) :
    (((ids.foldl (fun acc wid => creditAt acc wid w) hhs)).map
        Household.balance).sum
      = (hhs.map Household.balance).sum + (ids.length : ℚ) * w := by
  induction ids generalizing hhs with
  | nil => simp
  | cons a t ih =>
    have ha : a < hhs.length := hvalid a (by simp)
    have hrest : ∀ wid ∈ t, wid < (creditAt hhs a w).length := by
      intro wid hw
      simpa [creditAt_length] using hvalid wid (by simp [hw])
    simp only [List.foldl_cons, ih (creditAt hhs a w) hrest,
      creditAt_sum hhs a w ha, List.length_cons]
    push_cast
    ring

/-! ## Facts about `pay_workers` -/

/-- Closed form of `pay_workers` with the `let` bindings expanded. -/
lemma pay_workers_eq (f : Firm) (hhs : List Household) :
    pay_workers f hhs =
      if f.worker_ids.isEmpty then
        ({ f with balance := f.balance + f.revenue_this_tick,
                  revenue_this_tick := 0 }, hhs)
      else
        ({ f with
            balance :=
              (f.balance + f.revenue_this_tick)
                - (f.balance + f.revenue_this_tick) * f.wage_rate,
            revenue_this_tick := 0 },
          f.worker_ids.foldl (fun acc wid => creditAt acc wid
            ((f.balance + f.revenue_this_tick) * f.wage_rate
              / (f.worker_ids.length : ℚ))) hhs) := by
  simp only [pay_workers]

lemma pay_workers_firm_balance (f : Firm) (hhs : List Household) :
    (pay_workers f hhs).1.balance
      = if f.worker_ids.isEmpty then f.balance + f.revenue_this_tick
        else (f.balance + f.revenue_this_tick) * (1 - f.wage_rate) := by
  rw [pay_workers_eq]
  split
  · rfl
  · dsimp only
    ring

lemma pay_workers_firm_revenue (f : Firm) (hhs : List Household) :
    (pay_workers f hhs).1.revenue_this_tick = 0 := by
  rw [pay_workers_eq]
  split <;> rfl

lemma pay_workers_firm_id (f : Firm) (hhs : List Household) :
    (pay_workers f hhs).1.id = f.id := by
  rw [pay_workers_eq]; split <;> rfl

lemma pay_workers_firm_price (f : Firm) (hhs : List Household) :
    (pay_workers f hhs).1.price = f.price := by
  rw [pay_workers_eq]; split <;> rfl

lemma pay_workers_firm_wage (f : Firm) (hhs : List Household) :
    (pay_workers f hhs).1.wage_rate = f.wage_rate := by
  rw [pay_workers_eq]; split <;> rfl

lemma pay_workers_firm_roster (f : Firm) (hhs : List Household) :
    (pay_workers f hhs).1.worker_ids = f.worker_ids := by
  rw [pay_workers_eq]; split <;> rfl

lemma pay_workers_households_of_empty (f : Firm) (hhs : List Household)
    (he : f.worker_ids = []) :
    (pay_workers f hhs).2 = hhs := by
  rw [pay_workers_eq]
  simp [he]

lemma pay_workers_households_length (f : Firm) (hhs : List Household) :
    (pay_workers f hhs).2.length = hhs.length := by
  rw [pay_workers_eq]
  split
  · rfl
  · simpa using creditFold_length f.worker_ids hhs _

lemma pay_workers_household_balance (f : Firm) (hhs : List Household)
    (j : ℕ) (hj : j < hhs.length) :
    ((pay_workers f hhs).2.getD j default).balance
      = (hhs.getD j default).balance
        + (f.worker_ids.count j : ℚ)
          * ((f.balance + f.revenue_this_tick) * f.wage_rate
              / (f.worker_ids.length : ℚ)) := by
  rw [pay_workers_eq]
  split
  · rename_i he
    rw [List.isEmpty_iff] at he
    simp [he]
  · simpa using creditFold_getD_balance f.worker_ids hhs _ j hj

lemma pay_workers_conservation (f : Firm) (hhs : List Household)
    (hvalid : ∀ wid ∈ f.worker_ids, wid < hhs.length) :
    (pay_workers f hhs).1.balance + (pay_workers f hhs).1.revenue_this_tick
        + ((pay_workers f hhs).2.map Household.balance).sum
      = f.balance + f.revenue_this_tick
        + (hhs.map Household.balance).sum := by
  rw [pay_workers_eq]
  split
  · simp
  · rename_i hne
    rw [List.isEmpty_iff] at hne
    have hk0 : f.worker_ids.length ≠ 0 := by simpa using hne
    have hk : (f.worker_ids.length : ℚ) ≠ 0 := Nat.cast_ne_zero.mpr hk0
    dsimp only
    rw [creditFold_sum f.worker_ids hhs _ hvalid]
    field_simp

/-! ## Claim C3: payday folds revenue and pays equal shares -/

/-- C3: `pay_workers` folds the revenue accumulator `r` into the balance and
resets it to zero; then with `B = b + r`: if the roster of `k` distinct
workers is non-empty, every worker's household balance is credited by exactly
`B × wage_rate / k` and the firm balance becomes `B × (1 − wage_rate)`, while
households off the roster keep their balance; if the roster is empty, the firm
balance remains `B` and no household changes at all. -/
theorem run_payday_fold_and_equal_shares (f : Firm) (hhs : List Household)
    (_hw0 : 0 ≤ f.wage_rate) (_hw1 : f.wage_rate ≤ 1)
    (hnd : f.worker_ids.Nodup)
    (hvalid : ∀ wid ∈ f.worker_ids, wid < hhs.length) :
    (pay_workers f hhs).1.revenue_this_tick = 0 ∧
    (f.worker_ids ≠ [] →
      (pay_workers f hhs).1.balance
          = (f.balance + f.revenue_this_tick) * (1 - f.wage_rate) ∧
      (∀ j ∈ f.worker_ids,
        ((pay_workers f hhs).2.getD j default).balance
          = (hhs.getD j default).balance
            + (f.balance + f.revenue_this_tick) * f.wage_rate
              / (f.worker_ids.length : ℚ)) ∧
      (∀ j, j < hhs.length → j ∉ f.worker_ids →
        ((pay_workers f hhs).2.getD j default).balance
          = (hhs.getD j default).balance)) ∧
    (f.worker_ids = [] →
      (pay_workers f hhs).1.balance = f.balance + f.revenue_this_tick ∧
      (pay_workers f hhs).2 = hhs) := by
  refine ⟨pay_workers_firm_revenue f hhs, ?_, ?_⟩
  · intro hne
    refine ⟨?_, ?_, ?_⟩
    · rw [pay_workers_firm_balance]
      simp [hne]
    · intro j hj
      have hlt : j < hhs.length := hvalid j hj
      rw [pay_workers_household_balance f hhs j hlt]
      rw [List.count_eq_one_of_mem hnd hj]
      simp
    · intro j hlt hj
      rw [pay_workers_household_balance f hhs j hlt]
      rw [List.count_eq_zero_of_not_mem hj]
      simp
  · intro he
    refine ⟨?_, pay_workers_households_of_empty f hhs he⟩
    rw [pay_workers_firm_balance]
    simp [he]

/-- Witness for C3 at the spec's scenario: firm with balance 0, revenue 10,
wage rate 1/2 and one worker; the worker's balance 40 becomes 45 and the firm
keeps 5. -/
theorem run_payday_fold_and_equal_shares_witness :
    (pay_workers ⟨0, 0, 10, 1/2, [0], 10⟩ [⟨0, 40, 1, some 0⟩]).1.revenue_this_tick = 0 ∧
    (pay_workers ⟨0, 0, 10, 1/2, [0], 10⟩ [⟨0, 40, 1, some 0⟩]).1.balance = 5 ∧
    ((pay_workers ⟨0, 0, 10, 1/2, [0], 10⟩ [⟨0, 40, 1, some 0⟩]).2.getD 0
        default).balance = 45 := by
  have h := run_payday_fold_and_equal_shares ⟨0, 0, 10, 1/2, [0], 10⟩
    [⟨0, 40, 1, some 0⟩] (by norm_num) (by norm_num) (by simp)
    (by intro wid hw; simp at hw; simp [hw])
  obtain ⟨hrev, hne, -⟩ := h
  obtain ⟨hbal, hcredit, -⟩ := hne (by simp)
  refine ⟨hrev, ?_, ?_⟩
  · rw [hbal]; norm_num
  · have := hcredit 0 (by simp)
    rw [this]; norm_num

/-! ## Claim C7: firm balance after payday -/

/-- C7 as stated is false: for a firm with pre-fold balance 0, revenue 10,
wage rate 1/2 and one worker, the balance after `pay_workers` is 5, not
`0 × (1 − 1/2) = 0` — the code applies the wage rate to the post-fold balance
`b + r`, not to the pre-fold balance. -/
theorem payday_prefold_counterexample :
    (pay_workers ⟨0, 0, 10, 1/2, [0], 10⟩ [⟨0, 0, 1, none⟩]).1.balance = 5 ∧
    (0 : ℚ) * (1 - 1/2) = 0 ∧ (5 : ℚ) ≠ 0 := by
  refine ⟨?_, by norm_num, by norm_num⟩
  rw [pay_workers_firm_balance]
  norm_num

/-- C7 amended: after `pay_workers` the firm balance equals
`(balance_before_fold + revenue) × (1 − wage_rate)` when the roster is
non-empty, and `balance_before_fold + revenue` when the roster is empty — the
wage rate applies to the post-fold balance. -/
theorem payday_firm_balance_postfold (f : Firm) (hhs : List Household) :
    (f.worker_ids = [] →
      (pay_workers f hhs).1.balance = f.balance + f.revenue_this_tick) ∧
    (f.worker_ids ≠ [] →
      (pay_workers f hhs).1.balance
        = (f.balance + f.revenue_this_tick) * (1 - f.wage_rate)) := by
  constructor
  · intro he
    rw [pay_workers_firm_balance]
    simp [he]
  · intro hne
    rw [pay_workers_firm_balance]
    simp [hne]

/-! ## Generic list helpers -/

lemma getD_map {α β : Type} (g : α → β) (l : List α) (i : ℕ) (d : α) :
    (l.map g).getD i (g d) = g (l.getD i d) := by
  induction l generalizing i with
  | nil => rfl
  | cons a t ih =>
    cases i with
    | zero => rfl
    | succ n => simpa using ih n

lemma map_set_congr {α β : Type} (g : α → β) (l : List α) (e : ℕ) (x : α)
    (d : α) (hx : g x = g (l.getD e d)) :
    (l.set e x).map g = l.map g := by
  induction l generalizing e with
  | nil => rfl
  | cons a t ih =>
    cases e with
    | zero => simpa using hx
    | succ n => simpa using ih n hx

lemma getD_set_ne {α : Type} (l : List α) (i j : ℕ) (x : α) (d : α)
    (hne : i ≠ j) : (l.set i x).getD j d = l.getD j d := by
  induction l generalizing i j with
  | nil => rfl
  | cons a t ih =>
    cases i with
    | zero =>
      cases j with
      | zero => exact absurd rfl hne
      | succ m => simp
    | succ n =>
      cases j with
      | zero => simp
      | succ m => simpa using ih n m (by omega)

lemma getD_set_self {α : Type} (l : List α) (i : ℕ) (x : α) (d : α)
    (hi : i < l.length) : (l.set i x).getD i d = x := by
  induction l generalizing i with
  | nil => simp at hi
  | cons a t ih =>
    cases i with
    | zero => simp
    | succ n => simpa using ih n (by simpa using hi)

lemma forall_getD_of_forall_mem {α : Type} (l : List α) (P : α → Prop)
    (d : α) (h : ∀ a ∈ l, P a) :
    ∀ j, j < l.length → P (l.getD j d) := by
  intro j hj
  induction l generalizing j with
  | nil => simp at hj
  | cons a t ih =>
    cases j with
    | zero => exact h a (by simp)
    | succ n =>
      exact ih (fun b hb => h b (by simp [hb])) n (by simpa using hj)

lemma forall_mem_of_forall_getD {α : Type} (l : List α) (P : α → Prop)
    (d : α) (h : ∀ j, j < l.length → P (l.getD j d)) :
    ∀ a ∈ l, P a := by
  intro a ha
  obtain ⟨j, hj, rfl⟩ := List.getElem_of_mem ha
  have := h j hj
  rwa [List.getD_eq_getElem l d hj] at this

/-! ## The shopping phase changes firms only through the revenue field -/

lemma stripRevenue_receive (f : Firm) (a : ℚ) :
    stripRevenue (receive_payment f a) = stripRevenue f := rfl

lemma getFirm_strip_congr {fs1 fs2 : List Firm}
    (h : fs1.map stripRevenue = fs2.map stripRevenue) (c : ℕ) :
    stripRevenue (getFirm fs1 c) = stripRevenue (getFirm fs2 c) := by
  have h' := congrArg (fun l => l.getD c (stripRevenue default)) h
  simpa [getFirm, getD_map] using h'

lemma getFirm_price_congr {fs1 fs2 : List Firm}
    (h : fs1.map stripRevenue = fs2.map stripRevenue) (c : ℕ) :
    (getFirm fs1 c).price = (getFirm fs2 c).price := by
  have h' := congrArg Firm.price (getFirm_strip_congr h c)
  simpa [stripRevenue] using h'

lemma getFirm_id_congr {fs1 fs2 : List Firm}
    (h : fs1.map stripRevenue = fs2.map stripRevenue) (c : ℕ) :
    (getFirm fs1 c).id = (getFirm fs2 c).id := by
  have h' := congrArg Firm.id (getFirm_strip_congr h c)
  simpa [stripRevenue] using h'

lemma getFirm_balance_congr {fs1 fs2 : List Firm}
    (h : fs1.map stripRevenue = fs2.map stripRevenue) (c : ℕ) :
    (getFirm fs1 c).balance = (getFirm fs2 c).balance := by
  have h' := congrArg Firm.balance (getFirm_strip_congr h c)
  simpa [stripRevenue] using h'

lemma map_strip_set_receive (firms : List Firm) (c : ℕ) (a : ℚ) :
    (firms.set c (receive_payment (getFirm firms c) a)).map stripRevenue
      = firms.map stripRevenue :=
  map_set_congr stripRevenue firms c _ default (stripRevenue_receive _ _)

/-! ## Characterization of the shopping phase -/

lemma specShopped_congr {fs1 fs2 : List Firm}
    (h : fs1.map stripRevenue = fs2.map stripRevenue) :
    ∀ (hhs : List Household) (cs : List ℕ),
      specShoppedHouseholds fs1 hhs cs = specShoppedHouseholds fs2 hhs cs := by
  intro hhs cs
  induction hhs generalizing cs with
  | nil => cases cs <;> rfl
  | cons hh rest ih =>
    cases cs with
    | nil => rfl
    | cons c cs' =>
      simp only [specShoppedHouseholds, getFirm_price_congr h c, ih cs']

lemma specTxs_congr {fs1 fs2 : List Firm}
    (h : fs1.map stripRevenue = fs2.map stripRevenue) :
    ∀ (hhs : List Household) (cs : List ℕ),
      specShoppingTransactions fs1 hhs cs
        = specShoppingTransactions fs2 hhs cs := by
  intro hhs cs
  induction hhs generalizing cs with
  | nil => cases cs <;> rfl
  | cons hh rest ih =>
    cases cs with
    | nil => rfl
    | cons c cs' =>
      simp only [specShoppingTransactions, getFirm_price_congr h c,
        getFirm_id_congr h c, ih cs']

lemma shoppingPhase_cons (hh : Household) (rest : List Household) (c : ℕ)
    (cs : List ℕ) (firms : List Firm) (txs : List Transaction) :
    shoppingPhase (hh :: rest) (c :: cs) firms txs
      = if 0 < (place_order_and_pay hh (getFirm firms c).price).1 then
          ((place_order_and_pay hh (getFirm firms c).price).2 ::
            (shoppingPhase rest cs
              (firms.set c (receive_payment (getFirm firms c)
                (((place_order_and_pay hh (getFirm firms c).price).1 : ℚ)
                  * (getFirm firms c).price)))
              (txs ++ [{ from_id := hh.id,
                         to_id := (getFirm firms c).id,
                         amount :=
                           ((place_order_and_pay hh (getFirm firms c).price).1 : ℚ)
                             * (getFirm firms c).price }])).1,
            (shoppingPhase rest cs
              (firms.set c (receive_payment (getFirm firms c)
                (((place_order_and_pay hh (getFirm firms c).price).1 : ℚ)
                  * (getFirm firms c).price)))
              (txs ++ [{ from_id := hh.id,
                         to_id := (getFirm firms c).id,
                         amount :=
                           ((place_order_and_pay hh (getFirm firms c).price).1 : ℚ)
                             * (getFirm firms c).price }])).2)
        else
          ((place_order_and_pay hh (getFirm firms c).price).2 ::
            (shoppingPhase rest cs firms txs).1,
            (shoppingPhase rest cs firms txs).2) := by
  simp only [shoppingPhase]

lemma specTxs_cons (firms : List Firm) (hh : Household)
    (rest : List Household) (c : ℕ) (cs : List ℕ) :
    specShoppingTransactions firms (hh :: rest) (c :: cs)
      = (if 0 < (place_order_and_pay hh (getFirm firms c).price).1 then
          [{ from_id := hh.id, to_id := (getFirm firms c).id,
             amount := ((place_order_and_pay hh (getFirm firms c).price).1 : ℚ)
               * (getFirm firms c).price }]
        else []) ++ specShoppingTransactions firms rest cs := by
  simp only [specShoppingTransactions]

lemma shoppingPhase_chars (hhs : List Household) (cs : List ℕ)
    (firms : List Firm) (txs : List Transaction) :
    (shoppingPhase hhs cs firms txs).1 = specShoppedHouseholds firms hhs cs ∧
    (shoppingPhase hhs cs firms txs).2.1.map stripRevenue
      = firms.map stripRevenue ∧
    (shoppingPhase hhs cs firms txs).2.2
      = txs ++ specShoppingTransactions firms hhs cs := by
  induction hhs generalizing cs firms txs with
  | nil =>
    cases cs <;> simp [shoppingPhase, specShoppedHouseholds,
      specShoppingTransactions]
  | cons hh rest ih =>
    cases cs with
    | nil =>
      simp [shoppingPhase, specShoppedHouseholds, specShoppingTransactions]
    | cons c cs' =>
      rw [shoppingPhase_cons, specTxs_cons]
      by_cases hqty : 0 < (place_order_and_pay hh (getFirm firms c).price).1
      · rw [if_pos hqty, if_pos hqty]
        have hstrip := map_strip_set_receive firms c
          (((place_order_and_pay hh (getFirm firms c).price).1 : ℚ)
            * (getFirm firms c).price)
        obtain ⟨ih1, ih2, ih3⟩ := ih cs'
          (firms.set c (receive_payment (getFirm firms c)
            (((place_order_and_pay hh (getFirm firms c).price).1 : ℚ)
              * (getFirm firms c).price)))
          (txs ++ [{ from_id := hh.id,
                     to_id := (getFirm firms c).id,
                     amount :=
                       ((place_order_and_pay hh (getFirm firms c).price).1 : ℚ)
                         * (getFirm firms c).price }])
        refine ⟨?_, ?_, ?_⟩
        · simp only [specShoppedHouseholds, ih1, specShopped_congr hstrip]
        · rw [ih2, hstrip]
        · rw [ih3, specTxs_congr hstrip]
          simp
      · rw [if_neg hqty, if_neg hqty]
        obtain ⟨ih1, ih2, ih3⟩ := ih cs' firms txs
        exact ⟨by simp [specShoppedHouseholds, ih1], ih2, by simp [ih3]⟩

/-! ## More helpers: membership, sums over `set`, field transfer -/

lemma getFirm_mem (fs : List Firm) (c : ℕ) (hc : c < fs.length) :
    getFirm fs c ∈ fs := by
  rw [getFirm, List.getD_eq_getElem fs default hc]
  exact List.getElem_mem hc

lemma sum_map_set {α : Type} (g : α → ℚ) (l : List α) (i : ℕ) (x : α)
    (d : α) (hi : i < l.length) :
    ((l.set i x).map g).sum = (l.map g).sum + g x - g (l.getD i d) := by
  induction l generalizing i with
  | nil => simp at hi
  | cons a t ih =>
    cases i with
    | zero => simp; ring
    | succ n =>
      have hn : n < t.length := by simpa using hi
      simp only [List.set_cons_succ, List.map_cons, List.sum_cons,
        List.getD_cons_succ, ih n hn]
      ring

lemma getD_map_congr {α β : Type} (g : α → β) {l1 l2 : List α}
    (h : l1.map g = l2.map g) (j : ℕ) (d : α) :
    g (l1.getD j d) = g (l2.getD j d) := by
  have h' := congrArg (fun l => l.getD j (g d)) h
  simpa [getD_map] using h'

lemma strip_eq_fields {f g : Firm} (h : stripRevenue f = stripRevenue g) :
    f.id = g.id ∧ f.balance = g.balance ∧ f.price = g.price ∧
    f.wage_rate = g.wage_rate ∧ f.worker_ids = g.worker_ids := by
  have h1 := congrArg Firm.id h
  have h2 := congrArg Firm.balance h
  have h3 := congrArg Firm.price h
  have h4 := congrArg Firm.wage_rate h
  have h5 := congrArg Firm.worker_ids h
  simp only [stripRevenue] at h1 h2 h3 h4 h5
  exact ⟨h1, h2, h3, h4, h5⟩

lemma exists_strip_partner {fs1 fs2 : List Firm}
    (h : fs1.map stripRevenue = fs2.map stripRevenue) :
    ∀ f' ∈ fs1, ∃ f ∈ fs2, stripRevenue f' = stripRevenue f := by
  intro f' hf'
  have hm : stripRevenue f' ∈ fs2.map stripRevenue := by
    rw [← h]
    exact List.mem_map_of_mem stripRevenue hf'
  obtain ⟨f, hf, he⟩ := List.mem_map.mp hm
  exact ⟨f, hf, he.symm⟩

lemma map_balance_of_strip_eq {fs1 fs2 : List Firm}
    (h : fs1.map stripRevenue = fs2.map stripRevenue) :
    fs1.map Firm.balance = fs2.map Firm.balance := by
  have h' := congrArg (List.map Firm.balance) h
  rw [List.map_map, List.map_map] at h'
  have e : Firm.balance ∘ stripRevenue = Firm.balance := rfl
  rwa [e] at h'

/-! ## Conservation and non-negativity through the shopping phase -/

lemma shoppingPhase_conservation (hhs : List Household) (cs : List ℕ)
    (firms : List Firm) (txs : List Transaction)
    (hb : ∀ hh ∈ hhs, 0 ≤ hh.balance)
    (hp : ∀ f ∈ firms, 0 < f.price)
    (hc : ∀ c ∈ cs, c < firms.length) :
    ((shoppingPhase hhs cs firms txs).1.map Household.balance).sum
      + ((shoppingPhase hhs cs firms txs).2.1.map Firm.revenue_this_tick).sum
    = (hhs.map Household.balance).sum
      + (firms.map Firm.revenue_this_tick).sum := by
  induction hhs generalizing cs firms txs with
  | nil => cases cs <;> simp [shoppingPhase]
  | cons hh rest ih =>
    cases cs with
    | nil => simp [shoppingPhase]
    | cons c cs' =>
      have hcf : c < firms.length := hc c (by simp)
      have hpc : 0 < (getFirm firms c).price := hp _ (getFirm_mem firms c hcf)
      have hbh : 0 ≤ hh.balance := hb hh (by simp)
      have hbr : ∀ hh' ∈ rest, 0 ≤ hh'.balance :=
        fun hh' hm => hb hh' (by simp [hm])
      rw [shoppingPhase_cons]
      by_cases hqty : 0 < (place_order_and_pay hh (getFirm firms c).price).1
      · rw [if_pos hqty]
        dsimp only
        set F' := firms.set c (receive_payment (getFirm firms c)
          (((place_order_and_pay hh (getFirm firms c).price).1 : ℚ)
            * (getFirm firms c).price)) with hF'
        set T' := txs ++ [{ from_id := hh.id,
                            to_id := (getFirm firms c).id,
                            amount :=
                              ((place_order_and_pay hh
                                (getFirm firms c).price).1 : ℚ)
                                * (getFirm firms c).price }] with hT'
        have hlen' : F'.length = firms.length := by
          rw [hF']
          exact List.length_set firms c _
        have hp' : ∀ f ∈ F', 0 < f.price := by
          rw [hF']
          intro f hf
          rcases List.mem_or_eq_of_mem_set hf with hmem | rfl
          · exact hp f hmem
          · simpa [receive_payment] using hpc
        have hc' : ∀ c' ∈ cs', c' < F'.length := by
          intro c' hm
          rw [hlen']
          exact hc c' (by simp [hm])
        rw [List.map_cons, List.sum_cons, add_assoc]
        rw [ih cs' F' T' hbr hp' hc']
        have hsum := sum_map_set Firm.revenue_this_tick firms c
          (receive_payment (getFirm firms c)
            (((place_order_and_pay hh (getFirm firms c).price).1 : ℚ)
              * (getFirm firms c).price)) default hcf
        rw [hF', hsum, place_order_balance]
        simp only [receive_payment, getFirm, List.map_cons, List.sum_cons]
        ring
      · rw [if_neg hqty]
        dsimp only
        have hq0 : (place_order_and_pay hh (getFirm firms c).price).1 = 0 := by
          have := place_order_qty_nonneg hh (getFirm firms c).price hbh hpc
          omega
        have hc'' : ∀ c' ∈ cs', c' < firms.length :=
          fun c' hm => hc c' (by simp [hm])
        rw [List.map_cons, List.sum_cons, add_assoc]
        rw [ih cs' firms txs hbr hp hc'']
        rw [place_order_balance, hq0]
        simp only [List.map_cons, List.sum_cons]
        ring

lemma shoppingPhase_revenue_nonneg (hhs : List Household) (cs : List ℕ)
    (firms : List Firm) (txs : List Transaction)
    (hr : ∀ f ∈ firms, 0 ≤ f.revenue_this_tick)
    (hp : ∀ f ∈ firms, 0 < f.price)
    (hc : ∀ c ∈ cs, c < firms.length) :
    ∀ f' ∈ (shoppingPhase hhs cs firms txs).2.1, 0 ≤ f'.revenue_this_tick := by
  induction hhs generalizing cs firms txs with
  | nil => cases cs <;> simpa [shoppingPhase] using hr
  | cons hh rest ih =>
    cases cs with
    | nil => simpa [shoppingPhase] using hr
    | cons c cs' =>
      have hcf : c < firms.length := hc c (by simp)
      have hpc : 0 < (getFirm firms c).price := hp _ (getFirm_mem firms c hcf)
      rw [shoppingPhase_cons]
      by_cases hqty : 0 < (place_order_and_pay hh (getFirm firms c).price).1
      · rw [if_pos hqty]
        have hamt : 0 ≤ ((place_order_and_pay hh (getFirm firms c).price).1 : ℚ)
            * (getFirm firms c).price := by
          have : (0 : ℚ) ≤ ((place_order_and_pay hh
              (getFirm firms c).price).1 : ℚ) := by exact_mod_cast hqty.le
          exact mul_nonneg this hpc.le
        refine ih cs' _ _ ?_ ?_ ?_
        · intro f hf
          rcases List.mem_or_eq_of_mem_set hf with hmem | rfl
          · exact hr f hmem
          · have := hr _ (getFirm_mem firms c hcf)
            simp only [receive_payment]
            positivity
        · intro f hf
          rcases List.mem_or_eq_of_mem_set hf with hmem | rfl
          · exact hp f hmem
          · simpa [receive_payment] using hpc
        · intro c' hm
          rw [List.length_set]
          exact hc c' (by simp [hm])
      · rw [if_neg hqty]
        exact ih cs' firms txs hr hp (fun c' hm => hc c' (by simp [hm]))

lemma specShopped_length (firms : List Firm) (hhs : List Household)
    (cs : List ℕ) :
    (specShoppedHouseholds firms hhs cs).length = hhs.length := by
  induction hhs generalizing cs with
  | nil => cases cs <;> rfl
  | cons hh rest ih =>
    cases cs with
    | nil => rfl
    | cons c cs' => simpa [specShoppedHouseholds] using ih cs'

lemma specShopped_map_id (firms : List Firm) (hhs : List Household)
    (cs : List ℕ) :
    (specShoppedHouseholds firms hhs cs).map Household.id
      = hhs.map Household.id := by
  induction hhs generalizing cs with
  | nil => cases cs <;> rfl
  | cons hh rest ih =>
    cases cs with
    | nil => rfl
    | cons c cs' =>
      simp [specShoppedHouseholds, place_order_id, ih cs']

lemma specShopped_balance_nonneg (firms : List Firm) (hhs : List Household)
    (cs : List ℕ) (hb : ∀ hh ∈ hhs, 0 ≤ hh.balance)
    (hp : ∀ f ∈ firms, 0 < f.price)
    (hc : ∀ c ∈ cs, c < firms.length) :
    ∀ hh' ∈ specShoppedHouseholds firms hhs cs, 0 ≤ hh'.balance := by
  induction hhs generalizing cs with
  | nil => cases cs <;> simp [specShoppedHouseholds]
  | cons hh rest ih =>
    cases cs with
    | nil => simpa [specShoppedHouseholds] using hb
    | cons c cs' =>
      have hcf : c < firms.length := hc c (by simp)
      have hpc : 0 < (getFirm firms c).price := hp _ (getFirm_mem firms c hcf)
      intro hh' hm
      simp only [specShoppedHouseholds, List.mem_cons] at hm
      rcases hm with rfl | hm
      · exact place_order_balance_nonneg hh _ (hb hh (by simp)) hpc
      · exact ih cs' (fun x hx => hb x (by simp [hx]))
          (fun c' h => hc c' (by simp [h])) hh' hm

/-! ## Ids and non-negativity through wage payment -/

lemma creditAt_map_id (hhs : List Household) (i : ℕ) (w : ℚ) :
    (creditAt hhs i w).map Household.id = hhs.map Household.id := by
  induction hhs generalizing i with
  | nil => rfl
  | cons h t ih =>
    cases i with
    | zero => simp [creditAt]
    | succ n => simpa [creditAt] using ih n

lemma creditFold_map_id (ids : List ℕ) (hhs : List Household) (w : ℚ) :
    ((ids.foldl (fun acc wid => creditAt acc wid w) hhs)).map Household.id
      = hhs.map Household.id := by
  induction ids generalizing hhs with
  | nil => rfl
  | cons a t ih =>
    simpa [creditAt_map_id] using ih (creditAt hhs a w)

lemma pay_workers_hh_map_id (f : Firm) (hhs : List Household) :
    (pay_workers f hhs).2.map Household.id = hhs.map Household.id := by
  rw [pay_workers_eq]
  split
  · rfl
  · simpa using creditFold_map_id f.worker_ids hhs _

lemma pay_workers_hh_nonneg (f : Firm) (hhs : List Household)
    (hb : 0 ≤ f.balance) (hr : 0 ≤ f.revenue_this_tick)
    (hw : 0 ≤ f.wage_rate)
    (hhb : ∀ hh ∈ hhs, 0 ≤ hh.balance) :
    ∀ hh' ∈ (pay_workers f hhs).2, 0 ≤ hh'.balance := by
  have hlen := pay_workers_households_length f hhs
  refine forall_mem_of_forall_getD _
    (fun hh : Household => 0 ≤ hh.balance) default ?_
  intro j hj
  have hj' : j < hhs.length := by rwa [hlen] at hj
  rw [pay_workers_household_balance f hhs j hj']
  have h1 : 0 ≤ (hhs.getD j default).balance :=
    forall_getD_of_forall_mem hhs _ default hhb j hj'
  have h2 : (0 : ℚ) ≤ (f.worker_ids.count j : ℚ) := by positivity
  have h3 : (0 : ℚ) ≤ (f.balance + f.revenue_this_tick) * f.wage_rate
      / (f.worker_ids.length : ℚ) := by positivity
  positivity

/-! ## The payday phase -/

lemma paydayPhase_cons (f : Firm) (rest : List Firm) (hhs : List Household) :
    paydayPhase (f :: rest) hhs
      = ((pay_workers f hhs).1
          :: (paydayPhase rest (pay_workers f hhs).2).1,
         (paydayPhase rest (pay_workers f hhs).2).2) := by
  simp only [paydayPhase]

lemma paydayPhase_firm_length (fs : List Firm) (hhs : List Household) :
    (paydayPhase fs hhs).1.length = fs.length := by
  induction fs generalizing hhs with
  | nil => rfl
  | cons f rest ih =>
    rw [paydayPhase_cons]
    simpa using ih (pay_workers f hhs).2

lemma paydayPhase_hh_length (fs : List Firm) (hhs : List Household) :
    (paydayPhase fs hhs).2.length = hhs.length := by
  induction fs generalizing hhs with
  | nil => rfl
  | cons f rest ih =>
    rw [paydayPhase_cons]
    calc (paydayPhase rest (pay_workers f hhs).2).2.length
        = (pay_workers f hhs).2.length := ih (pay_workers f hhs).2
      _ = hhs.length := pay_workers_households_length f hhs

lemma paydayPhase_hh_map_id (fs : List Firm) (hhs : List Household) :
    (paydayPhase fs hhs).2.map Household.id = hhs.map Household.id := by
  induction fs generalizing hhs with
  | nil => rfl
  | cons f rest ih =>
    rw [paydayPhase_cons]
    calc (paydayPhase rest (pay_workers f hhs).2).2.map Household.id
        = (pay_workers f hhs).2.map Household.id := ih (pay_workers f hhs).2
      _ = hhs.map Household.id := pay_workers_hh_map_id f hhs

lemma paydayPhase_firm_map_id (fs : List Firm) (hhs : List Household) :
    (paydayPhase fs hhs).1.map Firm.id = fs.map Firm.id := by
  induction fs generalizing hhs with
  | nil => rfl
  | cons f rest ih =>
    rw [paydayPhase_cons]
    simp [pay_workers_firm_id, ih (pay_workers f hhs).2]

lemma paydayPhase_firm_map_price (fs : List Firm) (hhs : List Household) :
    (paydayPhase fs hhs).1.map Firm.price = fs.map Firm.price := by
  induction fs generalizing hhs with
  | nil => rfl
  | cons f rest ih =>
    rw [paydayPhase_cons]
    simp [pay_workers_firm_price, ih (pay_workers f hhs).2]

lemma paydayPhase_firm_map_wage (fs : List Firm) (hhs : List Household) :
    (paydayPhase fs hhs).1.map Firm.wage_rate = fs.map Firm.wage_rate := by
  induction fs generalizing hhs with
  | nil => rfl
  | cons f rest ih =>
    rw [paydayPhase_cons]
    simp [pay_workers_firm_wage, ih (pay_workers f hhs).2]

lemma paydayPhase_firm_map_roster (fs : List Firm) (hhs : List Household) :
    (paydayPhase fs hhs).1.map Firm.worker_ids = fs.map Firm.worker_ids := by
  induction fs generalizing hhs with
  | nil => rfl
  | cons f rest ih =>
    rw [paydayPhase_cons]
    simp [pay_workers_firm_roster, ih (pay_workers f hhs).2]

lemma paydayPhase_firm_revenue_zero (fs : List Firm) (hhs : List Household) :
    ∀ f' ∈ (paydayPhase fs hhs).1, f'.revenue_this_tick = 0 := by
  induction fs generalizing hhs with
  | nil => simp [paydayPhase]
  | cons f rest ih =>
    rw [paydayPhase_cons]
    intro f' hm
    rcases List.mem_cons.mp hm with rfl | hm
    · exact pay_workers_firm_revenue f hhs
    · exact ih (pay_workers f hhs).2 f' hm

lemma paydayPhase_firm_balance_nonneg (fs : List Firm) (hhs : List Household)
    (hb : ∀ f ∈ fs, 0 ≤ f.balance) (hr : ∀ f ∈ fs, 0 ≤ f.revenue_this_tick)
    (hw0 : ∀ f ∈ fs, 0 ≤ f.wage_rate) (hw1 : ∀ f ∈ fs, f.wage_rate ≤ 1) :
    ∀ f' ∈ (paydayPhase fs hhs).1, 0 ≤ f'.balance := by
  induction fs generalizing hhs with
  | nil => simp [paydayPhase]
  | cons f rest ih =>
    rw [paydayPhase_cons]
    intro f' hm
    rcases List.mem_cons.mp hm with rfl | hm
    · rw [pay_workers_firm_balance]
      have h1 : 0 ≤ f.balance + f.revenue_this_tick :=
        add_nonneg (hb f (by simp)) (hr f (by simp))
      have h2 : 0 ≤ 1 - f.wage_rate := by
        have := hw1 f (by simp)
        linarith
      split
      · exact h1
      · exact mul_nonneg h1 h2
    · exact ih (pay_workers f hhs).2
        (fun g hg => hb g (by simp [hg])) (fun g hg => hr g (by simp [hg]))
        (fun g hg => hw0 g (by simp [hg])) (fun g hg => hw1 g (by simp [hg]))
        f' hm

lemma paydayPhase_hh_nonneg (fs : List Firm) (hhs : List Household)
    (hb : ∀ f ∈ fs, 0 ≤ f.balance) (hr : ∀ f ∈ fs, 0 ≤ f.revenue_this_tick)
    (hw0 : ∀ f ∈ fs, 0 ≤ f.wage_rate)
    (hhb : ∀ hh ∈ hhs, 0 ≤ hh.balance) :
    ∀ hh' ∈ (paydayPhase fs hhs).2, 0 ≤ hh'.balance := by
  induction fs generalizing hhs with
  | nil => simpa [paydayPhase] using hhb
  | cons f rest ih =>
    rw [paydayPhase_cons]
    exact ih (pay_workers f hhs).2
      (fun g hg => hb g (by simp [hg])) (fun g hg => hr g (by simp [hg]))
      (fun g hg => hw0 g (by simp [hg]))
      (pay_workers_hh_nonneg f hhs (hb f (by simp)) (hr f (by simp))
        (hw0 f (by simp)) hhb)

lemma paydayPhase_conservation (fs : List Firm) (hhs : List Household)
    (hvalid : ∀ f ∈ fs, ∀ w ∈ f.worker_ids, w < hhs.length) :
    ((paydayPhase fs hhs).1.map Firm.balance).sum
        + ((paydayPhase fs hhs).1.map Firm.revenue_this_tick).sum
        + ((paydayPhase fs hhs).2.map Household.balance).sum
      = (fs.map Firm.balance).sum + (fs.map Firm.revenue_this_tick).sum
        + (hhs.map Household.balance).sum := by
  induction fs generalizing hhs with
  | nil => simp [paydayPhase]
  | cons f rest ih =>
    rw [paydayPhase_cons]
    have hlen := pay_workers_households_length f hhs
    have hrest : ∀ g ∈ rest, ∀ w ∈ g.worker_ids,
        w < (pay_workers f hhs).2.length := by
      intro g hg w hw
      rw [hlen]
      exact hvalid g (by simp [hg]) w hw
    have hkey := ih (pay_workers f hhs).2 hrest
    have hone := pay_workers_conservation f hhs
      (hvalid f (by simp))
    simp only [List.map_cons, List.sum_cons]
    linarith

/-! ## Closed form of `_setup_world` -/

lemma getD_map_range {α : Type} (g : ℕ → α) (N c : ℕ) (hc : c < N) (d : α) :
    ((List.range N).map g).getD c d = g c := by
  rw [List.getD_eq_getElem?_getD, List.getElem?_map]
  simp [List.getElem?_range, hc]

lemma map_range_set {α : Type} (g g' : ℕ → α) (N e : ℕ) (he : e < N)
    (hg : ∀ c, c < N → c ≠ e → g c = g' c) :
    (((List.range N).map g).set e (g' e)) = (List.range N).map g' := by
  apply List.ext_getElem?
  intro i
  by_cases hie : i = e
  · subst hie
    have hi' : i < ((List.range N).map g).length := by simpa using he
    rw [List.getElem?_set_self hi', List.getElem?_map]
    simp [List.getElem?_range, he]
  · rw [List.getElem?_set_ne (fun hc => hie hc.symm), List.getElem?_map,
      List.getElem?_map]
    by_cases hiN : i < N
    · simp [List.getElem?_range, hiN, hg i hiN hie]
    · have : (List.range N)[i]? = none := by
        apply List.getElem?_eq_none
        simpa using le_of_not_lt hiN
      simp [this]

lemma setup_fold_aux (cfg : Config) (employers : List ℕ) (n : ℕ) :
    (List.range n).foldl
      (fun (acc : List Household × List Firm) (i : ℕ) =>
        (acc.1 ++ [{ id := i,
                     balance := cfg.M0 / (cfg.N_H : ℚ),
                     size := cfg.household_size,
                     employer_id := some (employers.getD i 0) }],
         acc.2.set (employers.getD i 0)
           (add_worker (getFirm acc.2 (employers.getD i 0)) i)))
      ([], (List.range cfg.N_F).map (fun c =>
        { id := c,
          balance := 0,
          price := cfg.p,
          wage_rate := cfg.wage_rate,
          worker_ids := [],
          revenue_this_tick := 0 }))
      = ((List.range n).map (fun i =>
          { id := i,
            balance := cfg.M0 / (cfg.N_H : ℚ),
            size := cfg.household_size,
            employer_id := some (employers.getD i 0) }),
         (List.range cfg.N_F).map (fun c =>
          { id := c,
            balance := 0,
            price := cfg.p,
            wage_rate := cfg.wage_rate,
            worker_ids := (List.range n).filter
              (fun i => employers.getD i 0 = c),
            revenue_this_tick := 0 })) := by
  induction n with
  | zero => simp
  | succ n ih =>
    rw [List.range_succ, List.foldl_append, ih]
    simp only [List.foldl_cons, List.foldl_nil]
    refine Prod.ext ?_ ?_
    · simp [List.map_append]
    · simp only
      by_cases he : employers.getD n 0 < cfg.N_F
      · rw [getFirm, getD_map_range _ _ _ he]
        have hstep : add_worker
            ({ id := employers.getD n 0,
               balance := 0,
               price := cfg.p,
               wage_rate := cfg.wage_rate,
               worker_ids := (List.range n).filter
                 (fun i => employers.getD i 0 = employers.getD n 0),
               revenue_this_tick := 0 } : Firm) n
            = { id := employers.getD n 0,
                balance := 0,
                price := cfg.p,
                wage_rate := cfg.wage_rate,
                worker_ids := (List.range n ++ [n]).filter
                  (fun i => employers.getD i 0 = employers.getD n 0),
                revenue_this_tick := 0 } := by
          simp [add_worker, List.filter_append]
        rw [hstep]
        exact map_range_set _
          (fun c =>
            ({ id := c,
               balance := 0,
               price := cfg.p,
               wage_rate := cfg.wage_rate,
               worker_ids := (List.range n ++ [n]).filter
                 (fun i => employers.getD i 0 = c),
               revenue_this_tick := 0 } : Firm))
          cfg.N_F (employers.getD n 0) he
          (fun c _ hne => by
            have hne' : ¬ (employers.getD n 0 = c) := fun hc => hne hc.symm
            have hne2 : ¬ (employers[n]?.getD 0 = c) := by
              simpa [List.getD_eq_getElem?_getD] using hne'
            simp [List.filter_append, hne', hne2])
      · have hlen : (((List.range cfg.N_F).map (fun c =>
            ({ id := c,
               balance := 0,
               price := cfg.p,
               wage_rate := cfg.wage_rate,
               worker_ids := (List.range n).filter
                 (fun i => employers.getD i 0 = c),
               revenue_this_tick := 0 } : Firm)))).length
              ≤ employers.getD n 0 := by
          simpa using le_of_not_lt he
        rw [List.set_eq_of_length_le hlen]
        apply List.map_congr_left
        intro c hc
        have hcN : c < cfg.N_F := List.mem_range.mp hc
        have hne' : ¬ (employers.getD n 0 = c) := by omega
        have hne2 : ¬ (employers[n]?.getD 0 = c) := by
          simpa [List.getD_eq_getElem?_getD] using hne'
        simp [List.filter_append, hne', hne2]

lemma setup_world_eq (cfg : Config) (employers : List ℕ) :
    _setup_world cfg employers
      = { households := (List.range cfg.N_H).map (fun i =>
            { id := i,
              balance := cfg.M0 / (cfg.N_H : ℚ),
              size := cfg.household_size,
              employer_id := some (employers.getD i 0) }),
          firms := (List.range cfg.N_F).map (fun c =>
            { id := c,
              balance := 0,
              price := cfg.p,
              wage_rate := cfg.wage_rate,
              worker_ids := (List.range cfg.N_H).filter
                (fun i => employers.getD i 0 = c),
              revenue_this_tick := 0 }) } := by
  have h := setup_fold_aux cfg employers cfg.N_H
  exact congrArg (fun r : List Household × List Firm =>
    SimState.mk r.1 r.2) h

lemma setup_households (cfg : Config) (employers : List ℕ) :
    (_setup_world cfg employers).households
      = (List.range cfg.N_H).map (fun i =>
          { id := i,
            balance := cfg.M0 / (cfg.N_H : ℚ),
            size := cfg.household_size,
            employer_id := some (employers.getD i 0) }) := by
  rw [setup_world_eq]

lemma setup_firms (cfg : Config) (employers : List ℕ) :
    (_setup_world cfg employers).firms
      = (List.range cfg.N_F).map (fun c =>
          { id := c,
            balance := 0,
            price := cfg.p,
            wage_rate := cfg.wage_rate,
            worker_ids := (List.range cfg.N_H).filter
              (fun i => employers.getD i 0 = c),
            revenue_this_tick := 0 }) := by
  rw [setup_world_eq]

lemma forall_map_transfer {α β : Type} (g : α → β) {l1 l2 : List α}
    (h : l1.map g = l2.map g) {P : β → Prop} (hP : ∀ a ∈ l2, P (g a)) :
    ∀ a ∈ l1, P (g a) := by
  intro a ha
  have hm : g a ∈ l2.map g := by
    rw [← h]
    exact List.mem_map_of_mem g ha
  obtain ⟨b, hb, he⟩ := List.mem_map.mp hm
  rw [← he]
  exact hP b hb

/-! ## Well-formedness of the setup state -/

lemma WF_setup (cfg : Config) (employers : List ℕ) (hM0 : 0 ≤ cfg.M0) :
    WF cfg (_setup_world cfg employers) := by
  rw [setup_world_eq]
  refine ⟨by simp, by simp, ?_, ?_, ?_, ?_, ?_, ?_, ?_, ?_⟩
  · intro i hi
    have hi' : i < cfg.N_H := by simpa using hi
    rw [getD_map_range _ _ _ hi']
  · intro i hi
    have hi' : i < cfg.N_F := by simpa using hi
    rw [getD_map_range _ _ _ hi']
  · intro hh hm
    obtain ⟨i, _, rfl⟩ := List.mem_map.mp hm
    have : (0 : ℚ) ≤ (cfg.N_H : ℚ) := by positivity
    exact div_nonneg hM0 this
  · intro f hm
    obtain ⟨c, _, rfl⟩ := List.mem_map.mp hm
    exact le_refl 0
  · intro f hm
    obtain ⟨c, _, rfl⟩ := List.mem_map.mp hm
    exact le_refl 0
  · intro f hm
    obtain ⟨c, _, rfl⟩ := List.mem_map.mp hm
    rfl
  · intro f hm
    obtain ⟨c, _, rfl⟩ := List.mem_map.mp hm
    rfl
  · intro f hm
    obtain ⟨c, _, rfl⟩ := List.mem_map.mp hm
    intro w hw
    simp only [List.mem_filter, List.mem_range] at hw
    exact hw.1

/-! ## Well-formedness and conservation through one tick -/

lemma run_one_tick_households (st : SimState) (cs : List ℕ) :
    (run_one_tick st cs).1.households
      = (paydayPhase (shoppingPhase st.households cs st.firms []).2.1
          (shoppingPhase st.households cs st.firms []).1).2 := rfl

lemma run_one_tick_firms (st : SimState) (cs : List ℕ) :
    (run_one_tick st cs).1.firms
      = (paydayPhase (shoppingPhase st.households cs st.firms []).2.1
          (shoppingPhase st.households cs st.firms []).1).1 := rfl

lemma run_one_tick_txs (st : SimState) (cs : List ℕ) :
    (run_one_tick st cs).2
      = (shoppingPhase st.households cs st.firms []).2.2 := rfl

lemma WF_tick (cfg : Config) (st : SimState) (cs : List ℕ)
    (hp : 0 < cfg.p) (hw0 : 0 ≤ cfg.wage_rate) (hw1 : cfg.wage_rate ≤ 1)
    (hWF : WF cfg st) (hc : ∀ c ∈ cs, c < st.firms.length) :
    WF cfg (run_one_tick st cs).1 := by
  obtain ⟨h1, h2, h3⟩ := shoppingPhase_chars st.households cs st.firms []
  have hprice_pos : ∀ f ∈ st.firms, 0 < f.price := by
    intro f hf
    rw [hWF.firm_price f hf]
    exact hp
  have hS1_nonneg : ∀ hh' ∈ (shoppingPhase st.households cs st.firms []).1,
      0 ≤ hh'.balance := by
    rw [h1]
    exact specShopped_balance_nonneg st.firms st.households cs
      hWF.hh_nonneg hprice_pos hc
  have hS1_len : (shoppingPhase st.households cs st.firms []).1.length
      = st.households.length := by
    rw [h1]
    exact specShopped_length st.firms st.households cs
  have hS1_mapid : (shoppingPhase st.households cs st.firms []).1.map
      Household.id = st.households.map Household.id := by
    rw [h1]
    exact specShopped_map_id st.firms st.households cs
  have hF_len : (shoppingPhase st.households cs st.firms []).2.1.length
      = st.firms.length := by
    have := congrArg List.length h2
    simpa using this
  have hF_partner := exists_strip_partner h2
  have hF_balance_nonneg : ∀ f' ∈
      (shoppingPhase st.households cs st.firms []).2.1, 0 ≤ f'.balance := by
    intro f' hf'
    obtain ⟨f, hf, he⟩ := hF_partner f' hf'
    rw [(strip_eq_fields he).2.1]
    exact hWF.firm_balance_nonneg f hf
  have hF_rev_nonneg : ∀ f' ∈
      (shoppingPhase st.households cs st.firms []).2.1,
      0 ≤ f'.revenue_this_tick :=
    shoppingPhase_revenue_nonneg st.households cs st.firms []
      hWF.firm_revenue_nonneg hprice_pos hc
  have hF_price : ∀ f' ∈ (shoppingPhase st.households cs st.firms []).2.1,
      f'.price = cfg.p := by
    intro f' hf'
    obtain ⟨f, hf, he⟩ := hF_partner f' hf'
    rw [(strip_eq_fields he).2.2.1]
    exact hWF.firm_price f hf
  have hF_wage : ∀ f' ∈ (shoppingPhase st.households cs st.firms []).2.1,
      f'.wage_rate = cfg.wage_rate := by
    intro f' hf'
    obtain ⟨f, hf, he⟩ := hF_partner f' hf'
    rw [(strip_eq_fields he).2.2.2.1]
    exact hWF.firm_wage f hf
  have hF_roster : ∀ f' ∈ (shoppingPhase st.households cs st.firms []).2.1,
      ∀ w ∈ f'.worker_ids, w < cfg.N_H := by
    intro f' hf'
    obtain ⟨f, hf, he⟩ := hF_partner f' hf'
    rw [(strip_eq_fields he).2.2.2.2]
    exact hWF.firm_roster f hf
  refine ⟨?_, ?_, ?_, ?_, ?_, ?_, ?_, ?_, ?_, ?_⟩
  · rw [run_one_tick_households, paydayPhase_hh_length, hS1_len, hWF.hh_len]
  · rw [run_one_tick_firms, paydayPhase_firm_length, hF_len, hWF.firm_len]
  · intro i hi
    rw [run_one_tick_households] at hi ⊢
    have hmap : (paydayPhase (shoppingPhase st.households cs st.firms []).2.1
        (shoppingPhase st.households cs st.firms []).1).2.map Household.id
        = st.households.map Household.id := by
      rw [paydayPhase_hh_map_id, hS1_mapid]
    have hid := getD_map_congr Household.id hmap i default
    rw [hid]
    apply hWF.hh_id
    rw [paydayPhase_hh_length, hS1_len] at hi
    exact hi
  · intro i hi
    rw [run_one_tick_firms] at hi ⊢
    have hmap : (paydayPhase (shoppingPhase st.households cs st.firms []).2.1
        (shoppingPhase st.households cs st.firms []).1).1.map Firm.id
        = (shoppingPhase st.households cs st.firms []).2.1.map Firm.id := by
      rw [paydayPhase_firm_map_id]
    have hid := getD_map_congr Firm.id hmap i default
    rw [hid]
    have hid2 := getFirm_id_congr h2 i
    rw [getFirm, getFirm] at hid2
    rw [hid2]
    apply hWF.firm_id
    rw [paydayPhase_firm_length, hF_len] at hi
    exact hi
  · rw [run_one_tick_households]
    exact paydayPhase_hh_nonneg _ _ hF_balance_nonneg hF_rev_nonneg
      (fun f hf => by rw [hF_wage f hf]; exact hw0) hS1_nonneg
  · rw [run_one_tick_firms]
    exact paydayPhase_firm_balance_nonneg _ _ hF_balance_nonneg hF_rev_nonneg
      (fun f hf => by rw [hF_wage f hf]; exact hw0)
      (fun f hf => by rw [hF_wage f hf]; exact hw1)
  · rw [run_one_tick_firms]
    intro f' hf'
    rw [paydayPhase_firm_revenue_zero _ _ f' hf']
  · rw [run_one_tick_firms]
    have hmap := paydayPhase_firm_map_price
      (shoppingPhase st.households cs st.firms []).2.1
      (shoppingPhase st.households cs st.firms []).1
    exact @forall_map_transfer Firm ℚ Firm.price _ _ hmap
      (fun x => x = cfg.p) hF_price
  · rw [run_one_tick_firms]
    have hmap := paydayPhase_firm_map_wage
      (shoppingPhase st.households cs st.firms []).2.1
      (shoppingPhase st.households cs st.firms []).1
    exact @forall_map_transfer Firm ℚ Firm.wage_rate _ _ hmap
      (fun x => x = cfg.wage_rate) hF_wage
  · rw [run_one_tick_firms]
    have hmap := paydayPhase_firm_map_roster
      (shoppingPhase st.households cs st.firms []).2.1
      (shoppingPhase st.households cs st.firms []).1
    exact @forall_map_transfer Firm (List ℕ) Firm.worker_ids _ _ hmap
      (fun ws => ∀ w ∈ ws, w < cfg.N_H) hF_roster

lemma reachable_WF (cfg : Config) (st : SimState)
    (hp : 0 < cfg.p) (hw0 : 0 ≤ cfg.wage_rate) (hw1 : cfg.wage_rate ≤ 1)
    (hM0 : 0 ≤ cfg.M0) (h : Reachable cfg st) : WF cfg st := by
  induction h with
  | setup employers hlen hvalid => exact WF_setup cfg employers hM0
  | tick st cs hlen hvalid hst ih => exact WF_tick cfg st cs hp hw0 hw1 ih hvalid

lemma tick_conservation (cfg : Config) (st : SimState) (cs : List ℕ)
    (hp : 0 < cfg.p) (hWF : WF cfg st)
    (hc : ∀ c ∈ cs, c < st.firms.length) :
    totalMoney (run_one_tick st cs).1 = totalMoney st := by
  obtain ⟨h1, h2, h3⟩ := shoppingPhase_chars st.households cs st.firms []
  have hprice_pos : ∀ f ∈ st.firms, 0 < f.price := by
    intro f hf
    rw [hWF.firm_price f hf]
    exact hp
  have hshop := shoppingPhase_conservation st.households cs st.firms []
    hWF.hh_nonneg hprice_pos hc
  have hfbal := map_balance_of_strip_eq h2
  have hS1_len : (shoppingPhase st.households cs st.firms []).1.length
      = st.households.length := by
    rw [h1]
    exact specShopped_length st.firms st.households cs
  have hF_partner := exists_strip_partner h2
  have hroster : ∀ f ∈ (shoppingPhase st.households cs st.firms []).2.1,
      ∀ w ∈ f.worker_ids,
        w < (shoppingPhase st.households cs st.firms []).1.length := by
    intro f hf w hw
    obtain ⟨g, hg, he⟩ := hF_partner f hf
    rw [(strip_eq_fields he).2.2.2.2] at hw
    rw [hS1_len, hWF.hh_len]
    exact hWF.firm_roster g hg w hw
  have hpay := paydayPhase_conservation
    (shoppingPhase st.households cs st.firms []).2.1
    (shoppingPhase st.households cs st.firms []).1 hroster
  rw [totalMoney, totalMoney, run_one_tick_households, run_one_tick_firms]
  have hfb : ((shoppingPhase st.households cs st.firms []).2.1.map
      Firm.balance).sum = (st.firms.map Firm.balance).sum := by
    rw [hfbal]
  linarith

/-! ## Claim C1: money conservation over one tick -/

/-- C1: for every configuration with `N_F > 0`, `N_H > 0`, `p > 0`,
`wage_rate ∈ [0,1]` (and `M0 > 0` as §6 of the spec requires of every
configuration — non-negativity of `M0` is what the proof uses), and every
reachable state, one `run_one_tick` (with one valid random firm choice per
household) leaves the sum of all household balances plus all firm balances,
revenue accumulators included, unchanged — exactly, in rational
arithmetic. -/
theorem money_conservation_per_tick (cfg : Config) (st : SimState)
    (cs : List ℕ) (_hNF : 0 < cfg.N_F) (_hNH : 0 < cfg.N_H) (hp : 0 < cfg.p)
    (hw0 : 0 ≤ cfg.wage_rate) (hw1 : cfg.wage_rate ≤ 1) (hM0 : 0 ≤ cfg.M0)
    (hreach : Reachable cfg st)
    (_hlen : cs.length = st.households.length)
    (hc : ∀ c ∈ cs, c < st.firms.length) :
    totalMoney (run_one_tick st cs).1 = totalMoney st := by
  have hWF := reachable_WF cfg st hp hw0 hw1 hM0 hreach
  exact tick_conservation cfg st cs hp hWF hc

/-- Witness for C1: a 1-firm, 1-household economy with `p = 1`,
`wage_rate = 1/2`, `M0 = 1`, one tick after setup. -/
theorem money_conservation_per_tick_witness :
    totalMoney (run_one_tick (_setup_world ⟨1, 1, 1, 1/2, 1, 1⟩ [0]) [0]).1
      = totalMoney (_setup_world ⟨1, 1, 1, 1/2, 1, 1⟩ [0]) := by
  refine money_conservation_per_tick ⟨1, 1, 1, 1/2, 1, 1⟩ _ [0]
    (by norm_num) (by norm_num) (by norm_num) (by norm_num) (by norm_num)
    (by norm_num)
    (Reachable.setup [0] (by norm_num) ?_) ?_ ?_
  · intro e he
    simp only [List.mem_singleton] at he
    subst he
    decide
  · simp [setup_households]
  · intro c hcm
    simp only [List.mem_singleton] at hcm
    subst hcm
    simp [setup_firms]

/-! ## Claim C4: settlement lag -/

/-- C4: the purchase decisions of a tick are functions of the pre-payday
state only.  `specShoppedHouseholds` and `specShoppingTransactions` compute
each household's purchase independently from its own pre-tick balance and the
chosen firm's pre-tick price; the shopping phase inside `run_one_tick`
produces exactly these households and transaction records, and the final
state applies the payday phase only afterwards, to the already-shopped
households.  Hence no wage credited in this tick's payday is read by this
tick's shopping. -/
theorem settlement_lag (st : SimState) (cs : List ℕ) :
    (shoppingPhase st.households cs st.firms []).1
      = specShoppedHouseholds st.firms st.households cs ∧
    (run_one_tick st cs).2
      = specShoppingTransactions st.firms st.households cs ∧
    (run_one_tick st cs).1.households
      = (paydayPhase (shoppingPhase st.households cs st.firms []).2.1
          (specShoppedHouseholds st.firms st.households cs)).2 := by
  obtain ⟨h1, h2, h3⟩ := shoppingPhase_chars st.households cs st.firms []
  refine ⟨h1, ?_, ?_⟩
  · rw [run_one_tick_txs, h3]
    simp
  · rw [run_one_tick_households, h1]

/-! ## Claim C5: household balances stay non-negative -/

/-- C5: a purchase at a positive price never drives a non-negative household
balance negative, and consequently—wage credits being non-negative for
`wage_rate ∈ [0,1]`—every household balance is non-negative in every
reachable simulation state (with `M0 ≥ 0`, from §6's `M0 > 0`). -/
theorem household_balance_nonneg (cfg : Config)
    (hp : 0 < cfg.p) (hw0 : 0 ≤ cfg.wage_rate) (hw1 : cfg.wage_rate ≤ 1)
    (hM0 : 0 ≤ cfg.M0) :
    (∀ (h : Household) (price : ℚ), 0 ≤ h.balance → 0 < price →
      0 ≤ (place_order_and_pay h price).2.balance) ∧
    (∀ st : SimState, Reachable cfg st →
      ∀ hh ∈ st.households, 0 ≤ hh.balance) := by
  constructor
  · intro h price hb hpr
    exact place_order_balance_nonneg h price hb hpr
  · intro st hreach
    exact (reachable_WF cfg st hp hw0 hw1 hM0 hreach).hh_nonneg

/-- Witness for C5 at the spec's scenario: balance 7, price 10 — the balance
stays at 7, in particular non-negative. -/
theorem household_balance_nonneg_witness :
    0 ≤ (place_order_and_pay ⟨0, 7, 1, none⟩ 10).2.balance :=
  (household_balance_nonneg ⟨1, 1, 1, 1/2, 1, 1⟩ (by norm_num) (by norm_num)
    (by norm_num) (by norm_num)).1 ⟨0, 7, 1, none⟩ 10 (by norm_num)
    (by norm_num)

/-! ## Claim C10: firm balances stay non-negative -/

/-- C10 (implicit in the code, not stated by the spec): with `p > 0` and
`wage_rate ∈ [0,1]` (and `M0 ≥ 0`, from §6's `M0 > 0`), every firm's balance
and pending revenue accumulator are non-negative in every reachable state:
the balance starts at 0, recorded sale amounts are positive, and payday sets
the balance to `(balance + revenue) × (1 − wage_rate) ≥ 0`. -/
theorem firm_balance_nonneg_reachable (cfg : Config) (hp : 0 < cfg.p)
    (hw0 : 0 ≤ cfg.wage_rate) (hw1 : cfg.wage_rate ≤ 1) (hM0 : 0 ≤ cfg.M0) :
    ∀ st : SimState, Reachable cfg st →
      ∀ f ∈ st.firms, 0 ≤ f.balance ∧ 0 ≤ f.revenue_this_tick := by
  intro st hreach f hf
  have hWF := reachable_WF cfg st hp hw0 hw1 hM0 hreach
  exact ⟨hWF.firm_balance_nonneg f hf, hWF.firm_revenue_nonneg f hf⟩

/-- Witness for C10: the single firm of a 1-firm economy right after setup. -/
theorem firm_balance_nonneg_reachable_witness :
    0 ≤ (getFirm (_setup_world ⟨1, 1, 1, 1/2, 1, 1⟩ [0]).firms 0).balance := by
  have hmem : getFirm (_setup_world ⟨1, 1, 1, 1/2, 1, 1⟩ [0]).firms 0
      ∈ (_setup_world ⟨1, 1, 1, 1/2, 1, 1⟩ [0]).firms := by
    apply getFirm_mem
    simp [setup_firms]
  exact (firm_balance_nonneg_reachable ⟨1, 1, 1, 1/2, 1, 1⟩ (by norm_num)
    (by norm_num) (by norm_num) (by norm_num) _
    (Reachable.setup [0] (by norm_num)
      (by intro e he; simp only [List.mem_singleton] at he; subst he; decide))
    _ hmem).1

/-! ## Claim C9: the transaction records of a tick -/

lemma specTxs_amount_pos (firms : List Firm) (hhs : List Household)
    (cs : List ℕ) (hp : ∀ f ∈ firms, 0 < f.price)
    (hc : ∀ c ∈ cs, c < firms.length) :
    ∀ tx ∈ specShoppingTransactions firms hhs cs, 0 < tx.amount := by
  induction hhs generalizing cs with
  | nil => cases cs <;> simp [specShoppingTransactions]
  | cons hh rest ih =>
    cases cs with
    | nil => simp [specShoppingTransactions]
    | cons c cs' =>
      have hcf : c < firms.length := hc c (by simp)
      have hpc : 0 < (getFirm firms c).price := hp _ (getFirm_mem firms c hcf)
      rw [specTxs_cons]
      intro tx hm
      rw [List.mem_append] at hm
      rcases hm with hm | hm
      · by_cases hqty : 0 < (place_order_and_pay hh (getFirm firms c).price).1
        · rw [if_pos hqty] at hm
          simp only [List.mem_singleton] at hm
          subst hm
          have hq : (0 : ℚ) < ((place_order_and_pay hh
              (getFirm firms c).price).1 : ℚ) := by exact_mod_cast hqty
          exact mul_pos hq hpc
        · rw [if_neg hqty] at hm
          simp at hm
      · exact ih cs' (fun c' h => hc c' (by simp [h])) tx hm

lemma shopping_firms_applySale (hhs : List Household) (cs : List ℕ)
    (firms : List Firm) (txs : List Transaction)
    (hc : ∀ c ∈ cs, c < firms.length)
    (hid : ∀ i, i < firms.length → (firms.getD i default).id = i) :
    (shoppingPhase hhs cs firms txs).2.1
      = (specShoppingTransactions firms hhs cs).foldl applySale firms := by
  induction hhs generalizing cs firms txs with
  | nil => cases cs <;> simp [shoppingPhase, specShoppingTransactions]
  | cons hh rest ih =>
    cases cs with
    | nil => simp [shoppingPhase, specShoppingTransactions]
    | cons c cs' =>
      have hcf : c < firms.length := hc c (by simp)
      rw [shoppingPhase_cons, specTxs_cons]
      by_cases hqty : 0 < (place_order_and_pay hh (getFirm firms c).price).1
      · rw [if_pos hqty, if_pos hqty]
        dsimp only
        set F' := firms.set c (receive_payment (getFirm firms c)
          (((place_order_and_pay hh (getFirm firms c).price).1 : ℚ)
            * (getFirm firms c).price)) with hF'
        have hstrip : F'.map stripRevenue = firms.map stripRevenue := by
          rw [hF']
          exact map_strip_set_receive firms c _
        have hlen' : F'.length = firms.length := by
          rw [hF']
          exact List.length_set firms c _
        have hc' : ∀ c' ∈ cs', c' < F'.length := by
          intro c' hm
          rw [hlen']
          exact hc c' (by simp [hm])
        have hid' : ∀ i, i < F'.length → (F'.getD i default).id = i := by
          intro i hi
          have := getFirm_id_congr hstrip i
          rw [getFirm, getFirm] at this
          rw [this]
          exact hid i (by rwa [hlen'] at hi)
        have htoid : (getFirm firms c).id = c := by
          rw [getFirm]
          exact hid c hcf
        have happly : applySale firms
            { from_id := hh.id, to_id := (getFirm firms c).id,
              amount := ((place_order_and_pay hh
                (getFirm firms c).price).1 : ℚ) * (getFirm firms c).price }
            = F' := by
          rw [applySale, hF']
          simp only [htoid]
        rw [ih cs' F' _ hc' hid', specTxs_congr hstrip]
        rw [List.singleton_append, List.foldl_cons, happly]
      · rw [if_neg hqty, if_neg hqty]
        dsimp only
        rw [ih cs' firms txs (fun c' hm => hc c' (by simp [hm])) hid]
        simp

/-- C9: the records returned by `run_one_tick` are exactly the shopping
phase's records (the payday phase appends none), in household order: one
record with `amount = quantity × price` exactly when the purchased quantity
is positive (so all recorded amounts are positive), and the shopping phase's
firm dict results from passing exactly the recorded amounts to the payee
firms' `receive_payment` (`record_sale`). -/
theorem tick_transaction_records (st : SimState) (cs : List ℕ)
    (hp : ∀ f ∈ st.firms, 0 < f.price)
    (hc : ∀ c ∈ cs, c < st.firms.length)
    (hid : ∀ i, i < st.firms.length → (st.firms.getD i default).id = i) :
    (run_one_tick st cs).2
      = (shoppingPhase st.households cs st.firms []).2.2 ∧
    (run_one_tick st cs).2
      = specShoppingTransactions st.firms st.households cs ∧
    (∀ tx ∈ (run_one_tick st cs).2, 0 < tx.amount) ∧
    (shoppingPhase st.households cs st.firms []).2.1
      = ((run_one_tick st cs).2).foldl applySale st.firms := by
  obtain ⟨h1, h2, h3⟩ := shoppingPhase_chars st.households cs st.firms []
  have htx : (run_one_tick st cs).2
      = specShoppingTransactions st.firms st.households cs := by
    rw [run_one_tick_txs, h3]
    simp
  refine ⟨run_one_tick_txs st cs, htx, ?_, ?_⟩
  · rw [htx]
    exact specTxs_amount_pos st.firms st.households cs hp hc
  · rw [htx]
    exact shopping_firms_applySale st.households cs st.firms [] hc hid

/-- Witness for C9: the spec's 2-firm, 2-household economy with `p = 10`,
`wage_rate = 1/2`, `M0 = 100`; each household buys one unit. -/
theorem tick_transaction_records_witness :
    (run_one_tick (_setup_world ⟨2, 2, 10, 1/2, 100, 1⟩ [0, 1]) [0, 1]).2
      = specShoppingTransactions
          (_setup_world ⟨2, 2, 10, 1/2, 100, 1⟩ [0, 1]).firms
          (_setup_world ⟨2, 2, 10, 1/2, 100, 1⟩ [0, 1]).households [0, 1] :=
  (tick_transaction_records (_setup_world ⟨2, 2, 10, 1/2, 100, 1⟩ [0, 1])
    [0, 1] (by decide) (by decide) (by decide)).2.1

/-! ## Claim C8: the setup guarantees -/

/-- C8: after setup with `N_F > 0`, `N_H > 0` and one valid random employer
draw per household, firm ids are exactly `0..N_F-1` and household ids exactly
`0..N_H-1`; household `i`'s single employer is `employers[i]`, whose roster
contains `i`; every household starts with balance `M0 / N_H`, and the
household balances sum to exactly `M0` in rational arithmetic. -/
theorem setup_world_guarantees (cfg : Config) (employers : List ℕ)
    (_hNF : 0 < cfg.N_F) (hNH : 0 < cfg.N_H)
    (hlen : employers.length = cfg.N_H)
    (hval : ∀ e ∈ employers, e < cfg.N_F) :
    (_setup_world cfg employers).firms.map Firm.id = List.range cfg.N_F ∧
    (_setup_world cfg employers).households.map Household.id
      = List.range cfg.N_H ∧
    (∀ i, i < cfg.N_H →
      ((_setup_world cfg employers).households.getD i default).employer_id
          = some (employers.getD i 0) ∧
      i ∈ (getFirm (_setup_world cfg employers).firms
          (employers.getD i 0)).worker_ids) ∧
    (∀ hh ∈ (_setup_world cfg employers).households,
      hh.balance = cfg.M0 / (cfg.N_H : ℚ)) ∧
    ((_setup_world cfg employers).households.map Household.balance).sum
      = cfg.M0 := by
  refine ⟨?_, ?_, ?_, ?_, ?_⟩
  · rw [setup_firms, List.map_map]
    have : (Firm.id ∘ fun c =>
        ({ id := c,
           balance := 0,
           price := cfg.p,
           wage_rate := cfg.wage_rate,
           worker_ids := (List.range cfg.N_H).filter
             (fun i => employers.getD i 0 = c),
           revenue_this_tick := 0 } : Firm)) = fun c => c := rfl
    rw [this, List.map_id']
  · rw [setup_households, List.map_map]
    have : (Household.id ∘ fun i =>
        ({ id := i,
           balance := cfg.M0 / (cfg.N_H : ℚ),
           size := cfg.household_size,
           employer_id := some (employers.getD i 0) } : Household))
        = fun i => i := rfl
    rw [this, List.map_id']
  · intro i hi
    have hie : i < employers.length := by rwa [hlen]
    have hmem : employers.getD i 0 ∈ employers := by
      rw [List.getD_eq_getElem employers 0 hie]
      exact List.getElem_mem hie
    have he : employers.getD i 0 < cfg.N_F := hval _ hmem
    constructor
    · rw [setup_households, getD_map_range _ _ _ hi]
    · rw [setup_firms, getFirm, getD_map_range _ _ _ he]
      simp [List.mem_filter, List.mem_range, hi]
  · intro hh hm
    rw [setup_households] at hm
    obtain ⟨i, _, rfl⟩ := List.mem_map.mp hm
    rfl
  · rw [setup_households, List.map_map]
    have hconst : (Household.balance ∘ fun i =>
        ({ id := i,
           balance := cfg.M0 / (cfg.N_H : ℚ),
           size := cfg.household_size,
           employer_id := some (employers.getD i 0) } : Household))
        = fun _ => cfg.M0 / (cfg.N_H : ℚ) := rfl
    rw [hconst]
    have hrepl : (List.range cfg.N_H).map
        (fun _ => cfg.M0 / (cfg.N_H : ℚ))
        = List.replicate cfg.N_H (cfg.M0 / (cfg.N_H : ℚ)) := by
      simp [List.map_const]
    rw [hrepl, List.sum_replicate, nsmul_eq_mul]
    have hne : (cfg.N_H : ℚ) ≠ 0 := by
      exact_mod_cast Nat.pos_iff_ne_zero.mp hNH
    field_simp

/-- Witness for C8: the spec's 2-firm, 2-household economy — each household
starts with 50 and the balances sum to `M0 = 100`. -/
theorem setup_world_guarantees_witness :
    (_setup_world ⟨2, 2, 10, 1/2, 100, 1⟩ [0, 1]).firms.map Firm.id
        = List.range 2 ∧
    ((_setup_world ⟨2, 2, 10, 1/2, 100, 1⟩ [0, 1]).households.map
        Household.balance).sum = 100 := by
  have h := setup_world_guarantees ⟨2, 2, 10, 1/2, 100, 1⟩ [0, 1]
    (by norm_num) (by norm_num) (by norm_num)
    (by intro e he; simp only [List.mem_cons, List.mem_singleton] at he
        rcases he with rfl | rfl | h
        · decide
        · decide
        · simp at h)
  exact ⟨h.1, h.2.2.2.2⟩

end EconomySim
